import Mathlib

/-!
# micro-batching: batching engine and preprocessing pipeline

A shallow embedding of `src/batching.go` and
`src/internal/service/preprocess/jobprocess.go`.

* Go slices are Lean lists.
* A processor call that panics (for example a slice expression out of range) is
  the value `none`. Nothing recovers from a panic: the panicking goroutine runs
  its deferred calls and then the runtime ends the whole program. Whether a
  call that waits for the goroutine returns before the program ends is a race,
  the argument `race`; a call that does not return has the result `none`.
* Calls to collaborators (the logger, the pipeline, the dispatch goroutine, the
  external batch processor, the scheduler, the wait group) are recorded as a
  list of `Effect`s returned next to the new state.
* Values that come from outside (the fresh uuid, the order in which the
  per-type goroutines deliver to the result channel, the end of the race after
  a panic, the outcome of stopping the scheduler) are explicit arguments.
-/

namespace MicroBatching

/-! ## Data model (package `api`, external) -/

/-- Identifier of a job (`uuid.UUID`), an opaque number here. -/
abbrev UUID := Nat

/-- Routing tag of a job (`api.JobType`, a Go string type). -/
abbrev JobType := String

/-- Status of a job (`api.JobStatus`): this engine only ever writes `QUEUED`;
the other statuses belong to downstream processing. -/
inductive JobStatus where
  | QUEUED
  | downstream (tag : String)
deriving DecidableEq, Repr

/-- Key-value payload of a job (`api.Job_Params`). -/
abbrev Job_Params := List (String × String)

/-- The job record `api.Job`; the Go field `Type` is spelled `Type_`. -/
structure Job where
  Id : UUID
  Status : JobStatus
  Type_ : JobType
  Name : String
  Params : Job_Params
deriving DecidableEq, Repr

/-- The caller-supplied request `api.JobRequest`. -/
structure JobRequest where
  Type_ : JobType
  Name : String
  Params : Job_Params
deriving DecidableEq, Repr

/-! ## Package `preprocess` (`jobprocess.go`) -/

/-- The interface `Processor`: one method `Process([]Job) []Job`. The result
`none` stands for a call that panics. -/
abbrev Processor := List Job → Option (List Job)

/-- The registry `JobProcess`: the Go map `processors map[JobType][]Processor`,
read only by indexing, where a missing key reads as the empty chain. -/
structure JobProcess where
  processors : JobType → List Processor

/-- The constructor `NewJobProcess`: a registry with an empty map. -/
def NewJobProcess : JobProcess :=
  { processors := fun _ => [] }

/-- The method `JobProcess.Use`:
`m.processors[jobType] = append(m.processors[jobType], processor)`. -/
def JobProcess.Use (m : JobProcess) (jobType : JobType) (processor : Processor) :
    JobProcess :=
  { processors := Function.update m.processors jobType (m.processors jobType ++ [processor]) }

/-- The loop of `processJobs`:
`for _, processor := range processors { jobs = processor.Process(jobs) }`,
followed by the send of `jobs` on the result channel. A panicking processor
ends the run. -/
def processJobs (jobs : List Job) : List Processor → Option (List Job)
  | [] => some jobs
  | processor :: rest =>
    match processor jobs with
    | none => none
    | some jobs1 => processJobs jobs1 rest

/-- One step of building the map returned by `Split`:
`jobMap[job.Type] = append(jobMap[job.Type], job)`. The map is kept as an
association list, a new key going to the end. -/
def insertJob : List (JobType × List Job) → Job → List (JobType × List Job)
  | [], job => [(job.Type_, [job])]
  | (t, jobs) :: rest, job =>
    if t = job.Type_ then (t, jobs ++ [job]) :: rest
    else (t, jobs) :: insertJob rest job

/-- Modelled from the spec: `Split` is called by `JobProcess.Process` but its
file is not among the sources. The spec: "partitions the input sequence by type
(stable partition; within a type, original relative order preserved)"; the
caller ranges over the result as a map from job type to jobs. -/
def Split (allJobs : List Job) : List (JobType × List Job) :=
  allJobs.foldl insertJob []

/-- How the race ends between the runtime, which ends the program after the
unrecovered panic of a task, and the call that waits for the tasks: either the
program ends before the call returns, or the call returns first. -/
inductive Race where
  | exitFirst
  | returnFirst
deriving DecidableEq, Repr

/-- The goroutines started by `JobProcess.Process`, one `processJobs` per entry
of the job map. A task whose chain returns sends its result on the channel
(`some`); a task whose chain panics sends nothing (`none`). In both cases the
deferred `wg.Done()` runs. -/
def runTasks (m : JobProcess) (jobMap : List (JobType × List Job)) :
    List (Option (List Job)) :=
  jobMap.map (fun entry => processJobs entry.2 (m.processors entry.1))

/-- The contents of the buffered result channel when it is drained: the results
that were sent, in the order the tasks delivered them, `order` listing the task
indices. -/
def deliver (order : List Nat) (results : List (Option (List Job))) : List (List Job) :=
  order.filterMap (fun i => (results[i]?).join)

/-- A delivery order for `n` tasks: every task index exactly once. -/
def ValidOrder (order : List Nat) (n : Nat) : Prop :=
  order.Perm (List.range n)

instance (order : List Nat) (n : Nat) : Decidable (ValidOrder order n) := by
  unfold ValidOrder; infer_instance

/-- The final loop of `JobProcess.Process`:
`for result := range resultChan { jobs = append(jobs, result...) }`. -/
def collect (delivered : List (List Job)) : List Job :=
  delivered.foldl (fun jobs result => jobs ++ result) []

/-- The method `JobProcess.Process`: split by type, run one task per type, wait
for all of them, close the channel and append the results in the order they
arrived on it. Every task marks itself done, also a panicking one, so the wait
can end after a panic: then either the runtime ends the program first and the
call does not return (`none`), or the call returns what the other tasks sent. -/
def JobProcess.Process (m : JobProcess) (order : List Nat) (race : Race)
    (allJobs : List Job) : Option (List Job) :=
  let jobMap := Split allJobs
  let results := runTasks m jobMap
  if results.all Option.isSome then
    some (collect (deliver order results))
  else
    match race with
    | Race.exitFirst => none
    | Race.returnFirst => some (collect (deliver order results))

/-- Modelled from the spec: `processors.DummyProcessor` is not among the
sources; its test asserts that it returns its input, and the spec's scenario
uses it as the identity. -/
def DummyProcessor : Processor := fun jobs => some jobs

/-- The test double `RemoveTwoJobsProcessor` of `jobprocess_test.go`:
`return jobs[2:]`, which panics on fewer than two jobs. -/
def RemoveTwoJobsProcessor : Processor := fun jobs =>
  if 2 ≤ jobs.length then some (jobs.drop 2) else none

/-! ## Package `service`: the queue -/

/-- Modelled from the spec: `service.Queue` is not among the sources. The
spec: an "ordered sequence of Job, insertion-order preserved". -/
structure Queue where
  jobs : List Job
deriving DecidableEq, Repr

/-- Modelled from the spec: `Queue.Enqueue` is not among the sources.
"Enqueue(job): appends one job". -/
def Queue.Enqueue (q : Queue) (job : Job) : Queue :=
  { jobs := q.jobs ++ [job] }

/-- Modelled from the spec: `Queue.EnqueueJobs` is not among the sources.
"EnqueueMany(jobs): appends an ordered sequence". -/
def Queue.EnqueueJobs (q : Queue) (jobs : List Job) : Queue :=
  { jobs := q.jobs ++ jobs }

/-- Modelled from the spec: `Queue.Dequeue` is not among the sources.
"Dequeue(n): removes and returns up to n oldest jobs; returns an empty sequence
if the queue is empty", "leaving the remainder in original order". The result
is the returned jobs and the queue afterwards. -/
def Queue.Dequeue (q : Queue) (n : Nat) : List Job × Queue :=
  (q.jobs.take n, { jobs := q.jobs.drop n })

/-- Modelled from the spec: `Queue.Size` is not among the sources.
"Size(): current count". -/
def Queue.Size (q : Queue) : Nat :=
  q.jobs.length

/-! ## Package `batching` (`batching.go`) -/

/-- Modelled from the spec: `config.RunConfig` is not among the sources. The
spec: "current configuration (tick interval, batch size)", the batch size being
a count of jobs. -/
structure RunConfig where
  Frequency : Nat
  BatchSize : Nat
deriving DecidableEq, Repr

/-- The handle of a created `gocron.Scheduler` (external); only its presence
matters to the code modelled here. -/
structure Scheduler where
  interval : Nat
deriving DecidableEq, Repr

/-- The engine `Batching`. `batchesWg` is the counter of the wait group, the
number of outstanding dispatch tasks; a nil pointer or interface is `none`. The
field `batchProcessor` is the external processor, reached only through the
effect `processAndSleep`. -/
structure Batching where
  config : RunConfig
  queue : Queue
  scheduler : Option Scheduler
  preProcess : Option JobProcess
  batchesWg : Nat

/-- Calls that leave the engine, in program order. -/
inductive Effect where
  | log (msg : String)
  | pipeline (jobs : List Job)
  | go (jobs : List Job)
  | processAndSleep (jobs : List Job) (seconds : Nat)
  | schedulerShutdown
  | wgWait
deriving DecidableEq, Repr

/-- The names and processors that `SetPreProcess` takes from packages that are
not among the sources: the job types `UPDATEUSERINFO` and `BALANCEUPDATE` of
the API package and the processors `DummyProcessor` and `BalanceUpdate`. -/
structure Builtins where
  UPDATEUSERINFO : JobType
  BALANCEUPDATE : JobType
  DummyProcessor : Processor
  BalanceUpdate : Processor

/-- The constructor `NewBatchingWithConfig`: the given configuration, an empty queue, no
scheduler, no pipeline, no outstanding task. -/
def NewBatchingWithConfig (c : RunConfig) : Batching :=
  { config := c, queue := { jobs := [] }, scheduler := none, preProcess := none,
    batchesWg := 0 }

/-- The method `Batching.Take`: build the job from the request with the fresh `id`
(the value of `uuid.New()`), enqueue it and return it. -/
def Batching.Take (b : Batching) (id : UUID) (jobRequest : JobRequest) : Job × Batching :=
  let job : Job :=
    { Id := id, Status := JobStatus.QUEUED, Type_ := jobRequest.Type_,
      Name := jobRequest.Name, Params := jobRequest.Params }
  (job, { b with queue := b.queue.Enqueue job })

/-- The method `Batching.SetBatchSize`. -/
def Batching.SetBatchSize (b : Batching) (batchSize : Nat) : Batching :=
  { b with config := { b.config with BatchSize := batchSize } }

/-- The method `Batching.SetPreProcess`: when switched on with a pipeline
already present only log; when switched on without one, create the registry
and register the two built-in chains; when switched off drop the pipeline. -/
def Batching.SetPreProcess (env : Builtins) (b : Batching) (on_ : Bool) :
    Batching × List Effect :=
  if on_ then
    match b.preProcess with
    | some _ => (b, [Effect.log "preprocessing is already on"])
    | none =>
      let p0 := NewJobProcess
      let p1 := p0.Use env.UPDATEUSERINFO env.DummyProcessor
      let p2 := p1.Use env.BALANCEUPDATE env.BalanceUpdate
      ({ b with preProcess := some p2 }, [Effect.log "Added preprocessing"])
  else
    ({ b with preProcess := none }, [Effect.log "Removed preprocessing"])

/-- The method `Batching.Post`: one dispatch cycle. The delivery order `order`
matters only when the pipeline runs, and `race` only when a task of the
pipeline panics: it says whether the program ends before the cycle is over
(the result is then `none`) or the cycle finishes first. -/
def Batching.Post (b : Batching) (order : List Nat) (race : Race) :
    Option (Batching × List Effect) :=
  if b.queue.Size = 0 then
    some (b, [Effect.log "No jobs to process"])
  else
    match b.preProcess with
    | some m =>
      let (drained, q1) := b.queue.Dequeue b.queue.Size
      match m.Process order race drained with
      | none => none
      | some processed =>
        let q2 := q1.EnqueueJobs processed
        let (jobs, q3) := q2.Dequeue b.config.BatchSize
        some ({ b with queue := q3, batchesWg := b.batchesWg + 1 },
          [Effect.pipeline drained, Effect.go jobs])
    | none =>
      let (jobs, q3) := b.queue.Dequeue b.config.BatchSize
      some ({ b with queue := q3, batchesWg := b.batchesWg + 1 }, [Effect.go jobs])

/-- The dispatch task `Batching.post`: hand the batch to the external
processor, log, and (deferred) mark the task done. -/
def Batching.post (b : Batching) (jobs : List Job) : Batching × List Effect :=
  ({ b with batchesWg := b.batchesWg - 1 },
    [Effect.processAndSleep jobs 5, Effect.log "Batch processed"])

/-- The method `Batching.ShutDown`. The argument `stop` is what `scheduler.Shutdown()` returns when it
is called: `none` for success, `some err` for an error. The result is the
returned error and the calls made. -/
def Batching.ShutDown (b : Batching) (stop : Option String) : Option String × List Effect :=
  match b.scheduler with
  | some _ =>
    match stop with
    | some err => (some err, [Effect.schedulerShutdown])
    | none => (none, [Effect.schedulerShutdown, Effect.wgWait])
  | none => (none, [Effect.wgWait])

/-! ## Specification-side definitions -/

/-- Registering the pairs of `regs` with `Use`, first to last, on a fresh
registry. -/
def registerAll (regs : List (JobType × Processor)) : JobProcess :=
  regs.foldl (fun m r => m.Use r.1 r.2) NewJobProcess

/-- The processors that `regs` registers for the type `t`, in the order of
registration. -/
def chainOf (regs : List (JobType × Processor)) (t : JobType) : List Processor :=
  (regs.filter (fun r => r.1 = t)).map (fun r => r.2)

/-- The composition `Pn(...P2(P1(jobs))...)`, the chain given last processor
first; a panic anywhere leaves no value. -/
def composeRev : List Processor → Processor
  | [] => fun jobs => some jobs
  | pn :: before => fun jobs => (composeRev before jobs).bind pn

/-- The composition `Pn(...P2(P1(jobs))...)` of the chain `[P1, ..., Pn]`. -/
def applyChain (chain : List Processor) : Processor :=
  composeRev chain.reverse

/-- A processor that is an ordinary function and never panics. -/
def total (f : List Job → List Job) : Processor :=
  fun jobs => some (f jobs)

/-- The composition `fn(...f2(f1(jobs))...)` of ordinary functions
`[f1, ..., fn]`, written from the outside in. -/
def composeFns : List (List Job → List Job) → List Job → List Job
  | [] => fun jobs => jobs
  | f :: rest => fun jobs => composeFns rest (f jobs)

/-- The distinct job types present in the input, each once, in the order of
first occurrence. -/
def distinctTypes : List Job → List JobType
  | [] => []
  | j :: js => j.Type_ :: (distinctTypes js).filter (fun t => t ≠ j.Type_)

/-- The input's jobs of type `t`, in their original relative order. -/
def jobsOfType (allJobs : List Job) (t : JobType) : List Job :=
  allJobs.filter (fun j => j.Type_ = t)

/-- The chain registered for `t` applied to the input's jobs of type `t`. -/
def typeOutput (m : JobProcess) (allJobs : List Job) (t : JobType) : Option (List Job) :=
  applyChain (m.processors t) (jobsOfType allJobs t)

/-- The concatenation, over the types `ts`, of each type's chain output; no
value when a chain panics. -/
def concatOutputs (m : JobProcess) (allJobs : List Job) : List JobType → Option (List Job)
  | [] => some []
  | t :: ts =>
    match typeOutput m allJobs t, concatOutputs m allJobs ts with
    | some out, some outs => some (out ++ outs)
    | _, _ => none

/-- The concatenation, over the distinct types present in the input, of that
type's chain applied to the input's jobs of that type. -/
def expectedOutput (m : JobProcess) (allJobs : List Job) : Option (List Job) :=
  concatOutputs m allJobs (distinctTypes allJobs)

/-- The concatenation, over the types `ts`, of the chain outputs of the types
whose chain returns; a type whose chain panics contributes nothing. -/
def survivingOutputs (m : JobProcess) (allJobs : List Job) : List JobType → List Job
  | [] => []
  | t :: ts =>
    match typeOutput m allJobs t with
    | some out => out ++ survivingOutputs m allJobs ts
    | none => survivingOutputs m allJobs ts

/-- A job of type `"A"` with the given id. -/
def jobA (n : Nat) : Job :=
  { Id := n, Status := JobStatus.QUEUED, Type_ := "A", Name := "", Params := [] }

/-- A job of type `"B"` with the given id. -/
def jobB (n : Nat) : Job :=
  { Id := n, Status := JobStatus.QUEUED, Type_ := "B", Name := "", Params := [] }

/-- The registry of `TestJobProcess`: `"A"` gets `DummyProcessor` then
`RemoveTwoJobsProcessor`, `"B"` gets `DummyProcessor`. -/
def testRegistry : JobProcess :=
  ((NewJobProcess.Use "A" DummyProcessor).Use "A" RemoveTwoJobsProcessor).Use "B" DummyProcessor


/-- A sequence of registrations with another type interleaved: `"A"` gets
`DummyProcessor`, `"B"` gets `DummyProcessor`, `"A"` gets
`RemoveTwoJobsProcessor`. -/
def testRegs : List (JobType × Processor) :=
  [("A", DummyProcessor), ("B", DummyProcessor), ("A", RemoveTwoJobsProcessor)]

/-- A registry whose chain for `"A"` is `[RemoveTwoJobsProcessor]` and whose
chain for `"B"` is `[DummyProcessor]`. -/
def failingRegistry : JobProcess :=
  (NewJobProcess.Use "A" RemoveTwoJobsProcessor).Use "B" DummyProcessor

/-- A processor that removes every job. -/
def dropAllProcessor : Processor := fun _ => some []

/-- An engine with batch size 2, preprocessing off and the queue `J1..J5`. -/
def fiveJobEngine : Batching :=
  { config := { Frequency := 10, BatchSize := 2 },
    queue := { jobs := [jobA 1, jobA 2, jobA 3, jobA 4, jobA 5] },
    scheduler := none, preProcess := none, batchesWg := 0 }

/-- An engine with preprocessing on (the registry of `TestJobProcess`), batch
size 1 and the queue `[A1, B1, A2, A3]`. -/
def preprocessingEngine : Batching :=
  { config := { Frequency := 10, BatchSize := 1 },
    queue := { jobs := [jobA 1, jobB 1, jobA 2, jobA 3] },
    scheduler := none, preProcess := some testRegistry, batchesWg := 0 }

/-- An engine with an empty queue, preprocessing on and one outstanding
dispatch task. -/
def idleEngine : Batching :=
  { config := { Frequency := 10, BatchSize := 2 }, queue := { jobs := [] },
    scheduler := some { interval := 10 }, preProcess := some testRegistry, batchesWg := 1 }

/-- An engine with batch size 0, preprocessing off and one queued job. -/
def zeroBatchEngine : Batching :=
  { config := { Frequency := 10, BatchSize := 0 }, queue := { jobs := [jobA 1] },
    scheduler := none, preProcess := none, batchesWg := 0 }

/-- An engine with batch size 2, one queued job of type `"A"`, and a pipeline
whose chain for `"A"` removes every job. -/
def dropAllEngine : Batching :=
  { config := { Frequency := 10, BatchSize := 2 }, queue := { jobs := [jobA 1] },
    scheduler := none, preProcess := some (NewJobProcess.Use "A" dropAllProcessor),
    batchesWg := 0 }

/-- An engine with batch size 2, the queue `[A1, B1]` and a pipeline whose chain
for `"A"` is `[RemoveTwoJobsProcessor]` and whose chain for `"B"` is
`[DummyProcessor]`. -/
def failingEngine : Batching :=
  { config := { Frequency := 10, BatchSize := 2 }, queue := { jobs := [jobA 1, jobB 1] },
    scheduler := none, preProcess := some failingRegistry, batchesWg := 0 }

/-- A started engine with two outstanding dispatch tasks. -/
def runningEngine : Batching :=
  { config := { Frequency := 10, BatchSize := 2 }, queue := { jobs := [jobA 3] },
    scheduler := some { interval := 10 }, preProcess := none, batchesWg := 2 }

/-- Built-in names with two different job types and two processors. -/
def sampleBuiltins : Builtins :=
  { UPDATEUSERINFO := "UPDATE_USER_INFO", BALANCEUPDATE := "BALANCE_UPDATE",
    DummyProcessor := DummyProcessor, BalanceUpdate := dropAllProcessor }

/-- Whether an effect is the start of a dispatch task. -/
def Effect.isGo : Effect → Bool
  | Effect.go _ => true
  | _ => false

/-- Whether an effect is a call of the preprocessing pipeline. -/
def Effect.isPipeline : Effect → Bool
  | Effect.pipeline _ => true
  | _ => false


/-! ## Lemmas on the registry and the chain -/

theorem foldl_Use_processors (regs : List (JobType × Processor)) (m : JobProcess)
    (t : JobType) :
    (regs.foldl (fun m r => m.Use r.1 r.2) m).processors t
      = m.processors t ++ chainOf regs t := by
  induction regs generalizing m with
  | nil => simp [chainOf]
  | cons r rest ih =>
    rw [List.foldl_cons, ih]
    by_cases h : r.1 = t
    · subst h
      simp [JobProcess.Use, chainOf, List.filter_cons]
    · have h2 : t ≠ r.1 := fun e => h e.symm
      simp [JobProcess.Use, chainOf, List.filter_cons, h, Function.update_noteq h2]

theorem registerAll_processors (regs : List (JobType × Processor)) (t : JobType) :
    (registerAll regs).processors t = chainOf regs t := by
  unfold registerAll
  rw [foldl_Use_processors]
  simp [NewJobProcess]

theorem processJobs_append (chain : List Processor) (p : Processor) (jobs : List Job) :
    processJobs jobs (chain ++ [p]) = (processJobs jobs chain).bind p := by
  induction chain generalizing jobs with
  | nil =>
    simp only [List.nil_append, processJobs]
    cases h : p jobs <;> simp [Option.bind, h]
  | cons q rest ih =>
    simp only [List.cons_append, processJobs]
    cases h : q jobs with
    | none => simp
    | some js => simpa using ih js

theorem processJobs_eq_applyChain (chain : List Processor) (jobs : List Job) :
    processJobs jobs chain = applyChain chain jobs := by
  induction chain using List.reverseRecOn with
  | nil => simp [processJobs, applyChain, composeRev]
  | append_singleton chain p ih =>
    rw [processJobs_append, ih]
    simp [applyChain, composeRev]

theorem processJobs_total (fs : List (List Job → List Job)) (jobs : List Job) :
    processJobs jobs (fs.map total) = some (composeFns fs jobs) := by
  induction fs generalizing jobs with
  | nil => simp [processJobs, composeFns]
  | cons f rest ih => simp [processJobs, composeFns, total, ih]

/-! ## Lemmas on `Split` -/

theorem foldl_insertJob_same (t : JobType) (acc jobs : List Job)
    (rest : List (JobType × List Job)) (h : ∀ j ∈ jobs, j.Type_ = t) :
    jobs.foldl insertJob ((t, acc) :: rest) = (t, acc ++ jobs) :: rest := by
  induction jobs generalizing acc with
  | nil => simp
  | cons j js ih =>
    have hj : j.Type_ = t := h j (List.mem_cons_self _ _)
    have hjs : ∀ x ∈ js, x.Type_ = t := fun x hx => h x (List.mem_cons_of_mem _ hx)
    rw [List.foldl_cons]
    have : insertJob ((t, acc) :: rest) j = (t, acc ++ [j]) :: rest := by
      simp [insertJob, hj]
    rw [this, ih _ hjs]
    simp

theorem Split_single_type (t : JobType) (jobs : List Job) (hne : jobs ≠ [])
    (h : ∀ j ∈ jobs, j.Type_ = t) : Split jobs = [(t, jobs)] := by
  cases jobs with
  | nil => exact absurd rfl hne
  | cons j js =>
    have hj : j.Type_ = t := h j (List.mem_cons_self _ _)
    have hjs : ∀ x ∈ js, x.Type_ = t := fun x hx => h x (List.mem_cons_of_mem _ hx)
    unfold Split
    rw [List.foldl_cons]
    have : insertJob [] j = [(t, [j])] := by simp [insertJob, hj]
    rw [this, foldl_insertJob_same t [j] js [] hjs]
    simp

/-! ## Lemmas on delivery -/

theorem collect_aux (acc : List Job) (delivered : List (List Job)) :
    delivered.foldl (fun jobs result => jobs ++ result) acc = acc ++ delivered.flatten := by
  induction delivered generalizing acc with
  | nil => simp
  | cons r rest ih => simp [ih]

theorem collect_eq_join (delivered : List (List Job)) : collect delivered = delivered.flatten := by
  simp [collect, collect_aux]

theorem validOrder_one (order : List Nat) (h : ValidOrder order 1) : order = [0] := by
  unfold ValidOrder at h
  have : List.range 1 = [0] := rfl
  rw [this] at h
  exact List.perm_singleton.mp h

/-- C1: on a fresh registry, after any sequence of `Use` registrations (other
types interleaved), processing a non-empty list of jobs that all have type `t`
returns `Pn(...P2(P1(jobs))...)` for the chain `[P1, ..., Pn]` registered for
`t`, in registration order; with no chain registered for `t` the jobs come
back unchanged, and with processors that are ordinary functions the result is
the functions applied one after the other, each to the previous output. When
the chain panics there is no such value: the call does not return if the
program ends first and returns the empty list otherwise. -/
theorem Process_applies_chain_in_registration_order
    (regs : List (JobType × Processor)) (t : JobType) (jobs : List Job)
    (order : List Nat) (race : Race) (hne : jobs ≠ []) (htype : ∀ j ∈ jobs, j.Type_ = t)
    (horder : ValidOrder order (Split jobs).length) :
    ((registerAll regs).Process order race jobs
      = match applyChain (chainOf regs t) jobs, race with
        | some out, _ => some out
        | none, Race.exitFirst => none
        | none, Race.returnFirst => some [])
    ∧ (chainOf regs t = [] → (registerAll regs).Process order race jobs = some jobs)
    ∧ (∀ fs : List (List Job → List Job), chainOf regs t = fs.map total →
        (registerAll regs).Process order race jobs = some (composeFns fs jobs)) := by
  have hsplit := Split_single_type t jobs hne htype
  rw [hsplit] at horder
  have hord : order = [0] := validOrder_one order (by simpa using horder)
  have key : ∀ out, processJobs jobs (chainOf regs t) = some out →
      (registerAll regs).Process order race jobs = some out := by
    intro out hout
    unfold JobProcess.Process
    simp [hsplit, runTasks, registerAll_processors, hord, hout, deliver, collect]
  refine ⟨?_, ?_, ?_⟩
  · rw [← processJobs_eq_applyChain]
    cases h : processJobs jobs (chainOf regs t) with
    | some out => rw [key out h]
    | none =>
      unfold JobProcess.Process
      cases race <;>
        simp [hsplit, runTasks, registerAll_processors, hord, h, deliver, collect]
  · intro h0
    exact key jobs (by rw [h0]; rfl)
  · intro fs hfs
    exact key _ (by rw [hfs, processJobs_total])

/-! ## `Split` is the stable partition by type -/

theorem mem_distinctTypes (jobs : List Job) (t : JobType) :
    t ∈ distinctTypes jobs ↔ ∃ j ∈ jobs, j.Type_ = t := by
  induction jobs with
  | nil => simp [distinctTypes]
  | cons a rest ih =>
    simp only [distinctTypes, List.mem_cons, List.mem_filter, ih, exists_eq_or_imp]
    constructor
    · rintro (h | ⟨h, _⟩)
      · exact Or.inl h.symm
      · exact Or.inr h
    · rintro (h | h)
      · exact Or.inl h.symm
      · by_cases e : t = a.Type_
        · exact Or.inl e
        · exact Or.inr ⟨h, by simpa using e⟩

theorem nodup_distinctTypes (jobs : List Job) : (distinctTypes jobs).Nodup := by
  induction jobs with
  | nil => simp [distinctTypes]
  | cons a rest ih =>
    simp only [distinctTypes, List.nodup_cons, List.mem_filter]
    refine ⟨?_, ih.filter _⟩
    rintro ⟨_, h⟩
    simp at h

theorem distinctTypes_append_singleton (p : List Job) (j : Job) :
    distinctTypes (p ++ [j])
      = if j.Type_ ∈ distinctTypes p then distinctTypes p
        else distinctTypes p ++ [j.Type_] := by
  induction p with
  | nil => simp [distinctTypes]
  | cons a rest ih =>
    have hcons : distinctTypes (a :: rest ++ [j])
        = a.Type_ :: (distinctTypes (rest ++ [j])).filter (fun t => t ≠ a.Type_) := rfl
    have hcons2 : distinctTypes (a :: rest)
        = a.Type_ :: (distinctTypes rest).filter (fun t => t ≠ a.Type_) := rfl
    rw [hcons, hcons2, ih]
    by_cases hmem : j.Type_ ∈ distinctTypes rest
    · rw [if_pos hmem]
      by_cases e : j.Type_ = a.Type_
      · simp [e]
      · simp [hmem, e]
    · rw [if_neg hmem]
      by_cases e : j.Type_ = a.Type_
      · simp [e, List.filter_append]
      · simp [hmem, e, List.filter_append]

theorem insertJob_map_of_mem (ts : List JobType) (f : JobType → List Job) (j : Job)
    (hnd : ts.Nodup) (hmem : j.Type_ ∈ ts) :
    insertJob (ts.map (fun t => (t, f t))) j
      = ts.map (fun t => (t, if t = j.Type_ then f t ++ [j] else f t)) := by
  induction ts with
  | nil => simp at hmem
  | cons t rest ih =>
    rw [List.nodup_cons] at hnd
    by_cases e : t = j.Type_
    · have hrest : ∀ x ∈ rest, x ≠ j.Type_ := by
        intro x hx hxe
        exact hnd.1 (by rw [e, ← hxe]; exact hx)
      simp only [List.map_cons, insertJob, e, if_true]
      congr 1
      apply List.map_congr_left
      intro x hx
      simp [hrest x hx]
    · have hmem2 : j.Type_ ∈ rest := by
        rcases List.mem_cons.mp hmem with h | h
        · exact absurd h.symm e
        · exact h
      simp only [List.map_cons, insertJob, e, if_false]
      rw [ih hnd.2 hmem2]

theorem insertJob_map_of_not_mem (ts : List JobType) (f : JobType → List Job) (j : Job)
    (hmem : j.Type_ ∉ ts) :
    insertJob (ts.map (fun t => (t, f t))) j
      = ts.map (fun t => (t, f t)) ++ [(j.Type_, [j])] := by
  induction ts with
  | nil => simp [insertJob]
  | cons t rest ih =>
    have e : t ≠ j.Type_ := fun h => hmem (by simp [h])
    have hmem2 : j.Type_ ∉ rest := fun h => hmem (List.mem_cons_of_mem _ h)
    simp only [List.map_cons, insertJob, e, if_false, List.cons_append]
    rw [ih hmem2]

theorem insertJob_partition (p : List Job) (j : Job) :
    insertJob ((distinctTypes p).map (fun t => (t, jobsOfType p t))) j
      = (distinctTypes (p ++ [j])).map (fun t => (t, jobsOfType (p ++ [j]) t)) := by
  rw [distinctTypes_append_singleton]
  by_cases hmem : j.Type_ ∈ distinctTypes p
  · rw [insertJob_map_of_mem _ _ _ (nodup_distinctTypes p) hmem, if_pos hmem]
    apply List.map_congr_left
    intro t _
    by_cases e : t = j.Type_
    · simp [jobsOfType, List.filter_append, e]
    · have e2 : ¬ j.Type_ = t := fun h => e h.symm
      simp [jobsOfType, List.filter_append, e, e2]
  · rw [insertJob_map_of_not_mem _ _ _ hmem, if_neg hmem, List.map_append]
    have hnone : jobsOfType p j.Type_ = [] := by
      unfold jobsOfType
      rw [List.filter_eq_nil_iff]
      intro a ha hat
      exact hmem ((mem_distinctTypes p j.Type_).mpr ⟨a, ha, by simpa using hat⟩)
    congr 1
    · apply List.map_congr_left
      intro t ht
      have e2 : ¬ j.Type_ = t := fun h => hmem (h ▸ ht)
      simp [jobsOfType, List.filter_append, e2]
    · simp only [List.map_cons, List.map_nil]
      have : jobsOfType (p ++ [j]) j.Type_ = [j] := by
        have h2 := hnone
        unfold jobsOfType at h2 ⊢
        rw [List.filter_append, h2]
        simp
      rw [this]

theorem foldl_insertJob_partition (p jobs : List Job) :
    jobs.foldl insertJob ((distinctTypes p).map (fun t => (t, jobsOfType p t)))
      = (distinctTypes (p ++ jobs)).map (fun t => (t, jobsOfType (p ++ jobs) t)) := by
  induction jobs generalizing p with
  | nil => simp
  | cons j rest ih =>
    rw [List.foldl_cons, insertJob_partition, ih]
    simp

/-- The map built by `Split` is the stable partition by type in the spec's words:
one entry per distinct type, holding the input's jobs of that type in order. -/
theorem Split_eq_partition (allJobs : List Job) :
    Split allJobs = (distinctTypes allJobs).map (fun t => (t, jobsOfType allJobs t)) := by
  have h := foldl_insertJob_partition [] allJobs
  simpa [Split, distinctTypes] using h

/-! ## The tasks and the channel -/

theorem runTasks_partition (m : JobProcess) (allJobs : List Job) (ts : List JobType) :
    runTasks m (ts.map (fun t => (t, jobsOfType allJobs t)))
      = ts.map (typeOutput m allJobs) := by
  simp [runTasks, typeOutput, processJobs_eq_applyChain, List.map_map, Function.comp_def]

theorem runTasks_Split (m : JobProcess) (allJobs : List Job) :
    runTasks m (Split allJobs) = (distinctTypes allJobs).map (typeOutput m allJobs) := by
  rw [Split_eq_partition, runTasks_partition]

theorem runTasks_length (m : JobProcess) (jobMap : List (JobType × List Job)) :
    (runTasks m jobMap).length = jobMap.length := by
  simp [runTasks]

theorem filterMap_range_getElem (xs : List (Option (List Job))) :
    (List.range xs.length).filterMap (fun i => (xs[i]?).join) = xs.filterMap id := by
  induction xs using List.reverseRecOn with
  | nil => simp
  | append_singleton xs x ih =>
    rw [List.length_append, List.length_singleton, List.range_succ, List.filterMap_append,
      List.filterMap_append]
    have h1 : (List.range xs.length).filterMap (fun i => ((xs ++ [x])[i]?).join)
        = (List.range xs.length).filterMap (fun i => (xs[i]?).join) := by
      apply List.filterMap_congr
      intro i hi
      rw [List.mem_range] at hi
      rw [List.getElem?_append_left hi]
    rw [h1, ih]
    cases x <;> simp

theorem deliver_perm (order : List Nat) (results : List (Option (List Job)))
    (h : ValidOrder order results.length) :
    (deliver order results).Perm (results.filterMap id) := by
  unfold deliver
  have h1 := List.Perm.filterMap (fun i => (results[i]?).join) h
  rw [filterMap_range_getElem] at h1
  exact h1

theorem flatten_sent_eq_survivingOutputs (m : JobProcess) (allJobs : List Job)
    (ts : List JobType) :
    ((ts.map (typeOutput m allJobs)).filterMap id).flatten = survivingOutputs m allJobs ts := by
  induction ts with
  | nil => simp [survivingOutputs]
  | cons t rest ih =>
    simp only [List.map_cons, survivingOutputs]
    cases h : typeOutput m allJobs t with
    | none => simpa using ih
    | some out => simpa using ih

theorem all_isSome_iff (m : JobProcess) (allJobs : List Job) (ts : List JobType) :
    (ts.map (typeOutput m allJobs)).all Option.isSome = true
      ↔ ¬ ∃ t ∈ ts, typeOutput m allJobs t = none := by
  simp only [List.all_eq_true, List.mem_map, forall_exists_index, and_imp,
    forall_apply_eq_imp_iff₂, not_exists, not_and]
  constructor
  · intro h t ht hnone
    have := h t ht
    rw [hnone] at this
    simp at this
  · intro h t ht
    cases hc : typeOutput m allJobs t with
    | none => exact absurd hc (h t ht)
    | some out => rfl

theorem concatOutputs_eq_none_iff (m : JobProcess) (allJobs : List Job) (ts : List JobType) :
    concatOutputs m allJobs ts = none ↔ ∃ t ∈ ts, typeOutput m allJobs t = none := by
  induction ts with
  | nil => simp [concatOutputs]
  | cons t rest ih =>
    simp only [concatOutputs, List.mem_cons, exists_eq_or_imp, ← ih]
    cases typeOutput m allJobs t with
    | none => simp
    | some out =>
      cases concatOutputs m allJobs rest with
      | none => simp
      | some outs => simp

theorem concatOutputs_eq_survivingOutputs (m : JobProcess) (allJobs : List Job)
    (ts : List JobType) (e : List Job) (h : concatOutputs m allJobs ts = some e) :
    survivingOutputs m allJobs ts = e := by
  induction ts generalizing e with
  | nil =>
    simp [concatOutputs] at h
    simp [survivingOutputs, h]
  | cons t rest ih =>
    simp only [concatOutputs] at h
    simp only [survivingOutputs]
    cases h1 : typeOutput m allJobs t with
    | none => simp [h1] at h
    | some out =>
      cases h2 : concatOutputs m allJobs rest with
      | none => simp [h1, h2] at h
      | some outs =>
        simp [h1, h2] at h
        simp [ih outs h2, h]

theorem Process_returned_perm (m : JobProcess) (order : List Nat) (race : Race)
    (allJobs result : List Job) (horder : ValidOrder order (Split allJobs).length)
    (hres : m.Process order race allJobs = some result) :
    result.Perm (survivingOutputs m allJobs (distinctTypes allJobs)) := by
  have hval : result = collect (deliver order (runTasks m (Split allJobs))) := by
    unfold JobProcess.Process at hres
    by_cases hall : (runTasks m (Split allJobs)).all Option.isSome = true
    · simp only [hall, if_true] at hres
      exact (Option.some.inj hres).symm
    · cases race with
      | exitFirst => simp [hall] at hres
      | returnFirst =>
        simp only [hall] at hres
        exact (Option.some.inj hres).symm
  rw [← runTasks_length m] at horder
  have hperm := (deliver_perm order _ horder).flatten
  rw [runTasks_Split, flatten_sent_eq_survivingOutputs] at hperm
  rw [hval, collect_eq_join, runTasks_Split]
  exact hperm

theorem Process_returns_of_all (m : JobProcess) (order : List Nat) (race : Race)
    (allJobs : List Job)
    (hall : ¬ ∃ t ∈ distinctTypes allJobs, typeOutput m allJobs t = none) :
    m.Process order race allJobs
      = some (collect (deliver order (runTasks m (Split allJobs)))) := by
  have h := (all_isSome_iff m allJobs (distinctTypes allJobs)).mpr hall
  rw [← runTasks_Split] at h
  unfold JobProcess.Process
  simp only [h, if_true]

/-- C2: for every registry, every input and every order in which the per-type
tasks deliver their results, whenever every present type's chain returns, the
list returned by `Process` is a permutation of the concatenation, over the
distinct types present in the input, of that type's chain applied to the
input's jobs of that type. -/
theorem Process_perm_concat_of_type_outputs
    (m : JobProcess) (allJobs : List Job) (order : List Nat) (race : Race)
    (expected : List Job) (horder : ValidOrder order (Split allJobs).length)
    (hexp : expectedOutput m allJobs = some expected) :
    ∃ result, m.Process order race allJobs = some result ∧ result.Perm expected := by
  unfold expectedOutput at hexp
  have hall : ¬ ∃ t ∈ distinctTypes allJobs, typeOutput m allJobs t = none := by
    intro hex
    rw [(concatOutputs_eq_none_iff m allJobs _).mpr hex] at hexp
    cases hexp
  have hret := Process_returns_of_all m order race allJobs hall
  refine ⟨_, hret, ?_⟩
  have hperm := Process_returned_perm m order race allJobs _ horder hret
  rw [concatOutputs_eq_survivingOutputs m allJobs _ expected hexp] at hperm
  exact hperm

/-- C2, the scenario of `TestJobProcess`: with `"A"` mapped to
`[DummyProcessor, RemoveTwoJobsProcessor]` and `"B"` to `[DummyProcessor]`, the
input `[A1, B1, A2, A3]` yields, for the delivery order B then A, a
permutation of `[A3, B1]`. -/
theorem Process_perm_concat_of_type_outputs_witness :
    ValidOrder [1, 0] (Split [jobA 1, jobB 1, jobA 2, jobA 3]).length
    ∧ expectedOutput testRegistry [jobA 1, jobB 1, jobA 2, jobA 3] = some [jobA 3, jobB 1]
    ∧ ∃ result,
        testRegistry.Process [1, 0] Race.returnFirst [jobA 1, jobB 1, jobA 2, jobA 3]
          = some result
        ∧ result.Perm [jobA 3, jobB 1] :=
  ⟨by decide, by decide,
    Process_perm_concat_of_type_outputs testRegistry [jobA 1, jobB 1, jobA 2, jobA 3]
      [1, 0] Race.returnFirst [jobA 3, jobB 1] (by decide) (by decide)⟩

/-- C1 at a concrete input: `"A"` registered with `DummyProcessor` then (after a
registration for `"B"`) `RemoveTwoJobsProcessor`; three jobs of type `"A"`. -/
theorem Process_applies_chain_in_registration_order_witness :
    [jobA 1, jobA 2, jobA 3] ≠ []
    ∧ (∀ j ∈ [jobA 1, jobA 2, jobA 3], j.Type_ = "A")
    ∧ ValidOrder [0] (Split [jobA 1, jobA 2, jobA 3]).length
    ∧ ((registerAll testRegs).Process [0] Race.exitFirst [jobA 1, jobA 2, jobA 3]
        = match applyChain (chainOf testRegs "A") [jobA 1, jobA 2, jobA 3], Race.exitFirst with
          | some out, _ => some out
          | none, Race.exitFirst => none
          | none, Race.returnFirst => some [])
    ∧ applyChain (chainOf testRegs "A") [jobA 1, jobA 2, jobA 3] = some [jobA 3]
    ∧ (registerAll testRegs).Process [0] Race.exitFirst [jobA 1, jobA 2, jobA 3]
        = some [jobA 3] :=
  ⟨by decide, by decide, by decide,
    (Process_applies_chain_in_registration_order testRegs "A" [jobA 1, jobA 2, jobA 3] [0]
      Race.exitFirst (by decide) (by decide) (by decide)).1,
    by decide, by decide⟩

/-! ## The dispatch cycle -/

theorem length_ne_zero_of_ne_nil (q : Queue) (h : q.jobs ≠ []) : ¬ q.Size = 0 := by
  unfold Queue.Size
  intro h0
  exact h (List.length_eq_zero.mp h0)

/-- C3: with preprocessing off, batch size `k` and a non-empty queue `q`, one
dispatch cycle starts one dispatch task with a batch that is the first
`min k |q|` jobs of `q` in order, leaves the queue holding the remaining jobs in
order, and the dispatch task hands exactly that batch to the external
processor. -/
theorem Post_dispatches_first_batch (b : Batching) (order : List Nat) (race : Race)
    (hoff : b.preProcess = none) (hne : b.queue.jobs ≠ []) :
    ∃ batch rest,
      b.Post order race
        = some ({ b with queue := { jobs := rest }, batchesWg := b.batchesWg + 1 },
            [Effect.go batch])
      ∧ batch ++ rest = b.queue.jobs
      ∧ batch.length = min b.config.BatchSize b.queue.jobs.length
      ∧ batch = b.queue.jobs.take (min b.config.BatchSize b.queue.jobs.length)
      ∧ rest = b.queue.jobs.drop (min b.config.BatchSize b.queue.jobs.length)
      ∧ ∀ task : Batching,
          (task.post batch).2
            = [Effect.processAndSleep batch 5, Effect.log "Batch processed"] := by
  refine ⟨b.queue.jobs.take b.config.BatchSize, b.queue.jobs.drop b.config.BatchSize,
    ?_, ?_, ?_, ?_, ?_, ?_⟩
  · unfold Batching.Post
    rw [if_neg (length_ne_zero_of_ne_nil b.queue hne)]
    simp [hoff, Queue.Dequeue]
  · exact List.take_append_drop _ _
  · simp [List.length_take]
  · rcases Nat.le_total b.config.BatchSize b.queue.jobs.length with h | h
    · rw [Nat.min_eq_left h]
    · rw [Nat.min_eq_right h, List.take_length, List.take_of_length_le h]
  · rcases Nat.le_total b.config.BatchSize b.queue.jobs.length with h | h
    · rw [Nat.min_eq_left h]
    · rw [Nat.min_eq_right h, List.drop_length, List.drop_of_length_le h]
  · intro task
    rfl

/-- C3, the scenario of the spec: batch size 2 and queue `J1..J5` give the
batch `[J1, J2]` and the queue `[J3, J4, J5]`. -/
theorem Post_dispatches_first_batch_witness :
    fiveJobEngine.preProcess = none
    ∧ fiveJobEngine.queue.jobs ≠ []
    ∧ (∃ batch rest,
        fiveJobEngine.Post [] Race.exitFirst
          = some ({ fiveJobEngine with queue := { jobs := rest }, batchesWg := 0 + 1 },
              [Effect.go batch])
        ∧ batch ++ rest = fiveJobEngine.queue.jobs
        ∧ batch.length = min fiveJobEngine.config.BatchSize fiveJobEngine.queue.jobs.length
        ∧ batch = fiveJobEngine.queue.jobs.take
            (min fiveJobEngine.config.BatchSize fiveJobEngine.queue.jobs.length)
        ∧ rest = fiveJobEngine.queue.jobs.drop
            (min fiveJobEngine.config.BatchSize fiveJobEngine.queue.jobs.length)
        ∧ ∀ task : Batching,
            (task.post batch).2
              = [Effect.processAndSleep batch 5, Effect.log "Batch processed"])
    ∧ (fiveJobEngine.Post [] Race.exitFirst).map (fun r => (r.2, r.1.queue.jobs))
        = some ([Effect.go [jobA 1, jobA 2]], [jobA 3, jobA 4, jobA 5]) :=
  ⟨rfl, by decide,
    Post_dispatches_first_batch fiveJobEngine [] Race.exitFirst rfl (by decide), by decide⟩

/-- C4: with preprocessing on and a non-empty queue `q`, when the pipeline
returns `R` on the whole of `q`, one dispatch cycle calls the pipeline on all
of `q`, the queue after the drain and the re-enqueue holds exactly `R`, the
batch is the first `min batchSize |R|` jobs of `R` and the queue afterwards
holds the rest of `R` in order. -/
theorem Post_batches_from_preprocessed (b : Batching) (m : JobProcess) (order : List Nat)
    (race : Race) (R : List Job) (hon : b.preProcess = some m) (hne : b.queue.jobs ≠ [])
    (hR : m.Process order race b.queue.jobs = some R) :
    (b.queue.Dequeue b.queue.Size).1 = b.queue.jobs
    ∧ ((b.queue.Dequeue b.queue.Size).2.EnqueueJobs R).jobs = R
    ∧ ∃ batch rest,
        b.Post order race
          = some ({ b with queue := { jobs := rest }, batchesWg := b.batchesWg + 1 },
              [Effect.pipeline b.queue.jobs, Effect.go batch])
        ∧ batch = R.take (min b.config.BatchSize R.length)
        ∧ rest = R.drop (min b.config.BatchSize R.length)
        ∧ batch ++ rest = R
        ∧ batch.length = min b.config.BatchSize R.length := by
  have hdrain : (b.queue.Dequeue b.queue.Size).1 = b.queue.jobs := by
    simp [Queue.Dequeue, Queue.Size]
  have hrest : (b.queue.Dequeue b.queue.Size).2 = { jobs := [] } := by
    simp [Queue.Dequeue, Queue.Size]
  refine ⟨hdrain, by simp [hrest, Queue.EnqueueJobs],
    R.take b.config.BatchSize, R.drop b.config.BatchSize, ?_, ?_, ?_, ?_, ?_⟩
  · unfold Batching.Post
    rw [if_neg (length_ne_zero_of_ne_nil b.queue hne)]
    have h1 : List.take b.queue.Size b.queue.jobs = b.queue.jobs := by
      simp [Queue.Size]
    have h2 : List.drop b.queue.Size b.queue.jobs = [] := by
      simp [Queue.Size]
    simp [hon, Queue.EnqueueJobs, Queue.Dequeue, h1, h2, hR]
  · rcases Nat.le_total b.config.BatchSize R.length with h | h
    · rw [Nat.min_eq_left h]
    · rw [Nat.min_eq_right h, List.take_length, List.take_of_length_le h]
  · rcases Nat.le_total b.config.BatchSize R.length with h | h
    · rw [Nat.min_eq_left h]
    · rw [Nat.min_eq_right h, List.drop_length, List.drop_of_length_le h]
  · exact List.take_append_drop _ _
  · simp [List.length_take]

/-- C4 at a concrete input: queue `[A1, B1, A2, A3]`, the registry of
`TestJobProcess`, batch size 1, delivery order B then A: the pipeline returns
`[B1, A3]`, the batch is `[B1]` and the queue afterwards is `[A3]`. -/
theorem Post_batches_from_preprocessed_witness :
    preprocessingEngine.preProcess = some testRegistry
    ∧ preprocessingEngine.queue.jobs ≠ []
    ∧ testRegistry.Process [1, 0] Race.exitFirst preprocessingEngine.queue.jobs
        = some [jobB 1, jobA 3]
    ∧ (∃ batch rest,
        preprocessingEngine.Post [1, 0] Race.exitFirst
          = some ({ preprocessingEngine with queue := { jobs := rest }, batchesWg := 0 + 1 },
              [Effect.pipeline preprocessingEngine.queue.jobs, Effect.go batch])
        ∧ batch = [jobB 1, jobA 3].take (min 1 [jobB 1, jobA 3].length)
        ∧ rest = [jobB 1, jobA 3].drop (min 1 [jobB 1, jobA 3].length)
        ∧ batch ++ rest = [jobB 1, jobA 3]
        ∧ batch.length = min 1 [jobB 1, jobA 3].length)
    ∧ (preprocessingEngine.Post [1, 0] Race.exitFirst).map (fun r => (r.2, r.1.queue.jobs))
        = some ([Effect.pipeline [jobA 1, jobB 1, jobA 2, jobA 3], Effect.go [jobB 1]],
            [jobA 3]) :=
  ⟨rfl, by decide, by decide,
    (Post_batches_from_preprocessed preprocessingEngine testRegistry [1, 0] Race.exitFirst
      [jobB 1, jobA 3] rfl (by decide) (by decide)).2.2,
    by decide⟩

/-- C7: with an empty queue one dispatch cycle is a no-op: the engine state
(queue, configuration, pipeline, scheduler, outstanding-task count) is returned
unchanged and the only call made is the log line, so no dispatch task is
started and the pipeline is not called. -/
theorem Post_empty_queue_noop (b : Batching) (order : List Nat) (race : Race)
    (hempty : b.queue.Size = 0) :
    b.Post order race = some (b, [Effect.log "No jobs to process"])
    ∧ ∃ b1 effects, b.Post order race = some (b1, effects)
        ∧ b1.queue = b.queue ∧ b1.config = b.config ∧ b1.preProcess = b.preProcess
        ∧ b1.batchesWg = b.batchesWg ∧ b1.scheduler = b.scheduler
        ∧ (∀ e ∈ effects, e.isGo = false ∧ e.isPipeline = false) := by
  have h : b.Post order race = some (b, [Effect.log "No jobs to process"]) := by
    unfold Batching.Post
    rw [if_pos hempty]
  refine ⟨h, b, _, h, rfl, rfl, rfl, rfl, rfl, ?_⟩
  intro e he
  simp at he
  subst he
  exact ⟨rfl, rfl⟩

/-- C7 at a concrete input: an engine with an empty queue, preprocessing on and
one outstanding dispatch task. -/
theorem Post_empty_queue_noop_witness :
    idleEngine.queue.Size = 0
    ∧ idleEngine.Post [0, 1] Race.exitFirst
        = some (idleEngine, [Effect.log "No jobs to process"]) :=
  ⟨by decide, (Post_empty_queue_noop idleEngine [0, 1] Race.exitFirst (by decide)).1⟩

/-- C8: `Take` returns a job with status `QUEUED`, the given id and the type,
name and params of the request; the queue afterwards is the queue before with
that job appended at the tail, so its size grows by one; configuration,
pipeline, scheduler and the outstanding-task count are unchanged. -/
theorem Take_enqueues_queued_job (b : Batching) (id : UUID) (r : JobRequest) :
    (b.Take id r).1.Status = JobStatus.QUEUED
    ∧ (b.Take id r).1.Id = id
    ∧ (b.Take id r).1.Type_ = r.Type_
    ∧ (b.Take id r).1.Name = r.Name
    ∧ (b.Take id r).1.Params = r.Params
    ∧ (b.Take id r).2.queue.jobs = b.queue.jobs ++ [(b.Take id r).1]
    ∧ (b.Take id r).2.queue.Size = b.queue.Size + 1
    ∧ (b.Take id r).2.queue.jobs.take b.queue.Size = b.queue.jobs
    ∧ (b.Take id r).2.config = b.config
    ∧ (b.Take id r).2.preProcess = b.preProcess
    ∧ (b.Take id r).2.scheduler = b.scheduler
    ∧ (b.Take id r).2.batchesWg = b.batchesWg := by
  refine ⟨rfl, rfl, rfl, rfl, rfl, rfl, ?_, ?_, rfl, rfl, rfl, rfl⟩
  · simp [Batching.Take, Queue.Enqueue, Queue.Size]
  · simp [Batching.Take, Queue.Enqueue, Queue.Size]

/-! ## The preprocessing toggle -/

/-- C9: switching preprocessing on twice leaves the engine in the same state as
switching it on once; when it is already on the call changes nothing and only
logs; and after two calls on an engine without a pipeline the chains are the
ones of a single registration: one processor for `UPDATEUSERINFO`, one for
`BALANCEUPDATE`, none for any other type. -/
theorem SetPreProcess_on_idempotent (env : Builtins) (b : Batching) :
    ((b.SetPreProcess env true).1.SetPreProcess env true).1 = (b.SetPreProcess env true).1
    ∧ (∀ m, b.preProcess = some m →
        b.SetPreProcess env true = (b, [Effect.log "preprocessing is already on"]))
    ∧ (b.SetPreProcess env true).1.preProcess ≠ none
    ∧ (env.UPDATEUSERINFO ≠ env.BALANCEUPDATE → b.preProcess = none →
        ∃ m, ((b.SetPreProcess env true).1.SetPreProcess env true).1.preProcess = some m
          ∧ m.processors env.UPDATEUSERINFO = [env.DummyProcessor]
          ∧ m.processors env.BALANCEUPDATE = [env.BalanceUpdate]
          ∧ ∀ t, t ≠ env.UPDATEUSERINFO → t ≠ env.BALANCEUPDATE → m.processors t = []) := by
  have hsome : ∀ (c : Batching) (m : JobProcess), c.preProcess = some m →
      c.SetPreProcess env true = (c, [Effect.log "preprocessing is already on"]) := by
    intro c m hm
    simp [Batching.SetPreProcess, hm]
  refine ⟨?_, hsome b, ?_, ?_⟩
  · cases hb : b.preProcess with
    | some m => rw [hsome b m hb, hsome b m hb]
    | none =>
      have h1 : (b.SetPreProcess env true).1.preProcess
          = some ((NewJobProcess.Use env.UPDATEUSERINFO env.DummyProcessor).Use
              env.BALANCEUPDATE env.BalanceUpdate) := by
        simp [Batching.SetPreProcess, hb]
      rw [hsome _ _ h1]
  · cases hb : b.preProcess with
    | some m => rw [hsome b m hb]; simp [hb]
    | none => simp [Batching.SetPreProcess, hb]
  · intro hdiff hb
    have h1 : (b.SetPreProcess env true).1.preProcess
        = some ((NewJobProcess.Use env.UPDATEUSERINFO env.DummyProcessor).Use
            env.BALANCEUPDATE env.BalanceUpdate) := by
      simp [Batching.SetPreProcess, hb]
    refine ⟨(NewJobProcess.Use env.UPDATEUSERINFO env.DummyProcessor).Use
      env.BALANCEUPDATE env.BalanceUpdate, ?_, ?_, ?_, ?_⟩
    · rw [hsome _ _ h1]
      exact h1
    · simp [JobProcess.Use, NewJobProcess, Function.update_noteq hdiff]
    · simp [JobProcess.Use, NewJobProcess, Function.update_noteq hdiff.symm]
    · intro t h1 h2
      simp [JobProcess.Use, NewJobProcess, Function.update_noteq h1, Function.update_noteq h2]

/-- C9 at a concrete input: an engine with preprocessing already on is left as
it is, and a fresh engine gets one-processor chains after two calls. -/
theorem SetPreProcess_on_idempotent_witness :
    preprocessingEngine.preProcess = some testRegistry
    ∧ preprocessingEngine.SetPreProcess sampleBuiltins true
        = (preprocessingEngine, [Effect.log "preprocessing is already on"])
    ∧ sampleBuiltins.UPDATEUSERINFO ≠ sampleBuiltins.BALANCEUPDATE
    ∧ fiveJobEngine.preProcess = none
    ∧ (∃ m, ((fiveJobEngine.SetPreProcess sampleBuiltins true).1.SetPreProcess
              sampleBuiltins true).1.preProcess = some m
          ∧ m.processors sampleBuiltins.UPDATEUSERINFO = [sampleBuiltins.DummyProcessor]
          ∧ m.processors sampleBuiltins.BALANCEUPDATE = [sampleBuiltins.BalanceUpdate]
          ∧ ∀ t, t ≠ sampleBuiltins.UPDATEUSERINFO → t ≠ sampleBuiltins.BALANCEUPDATE →
              m.processors t = []) :=
  ⟨rfl,
    (SetPreProcess_on_idempotent sampleBuiltins preprocessingEngine).2.1 testRegistry rfl,
    by decide, rfl,
    (SetPreProcess_on_idempotent sampleBuiltins fiveJobEngine).2.2.2 (by decide) rfl⟩

/-! ## Shutdown -/

/-- C5, as found: on a started engine with two outstanding dispatch tasks,
when stopping the scheduler fails `ShutDown` returns the error after the single call
`scheduler.Shutdown()`; the wait on the task group is not performed. -/
theorem ShutDown_stop_error_skips_wait :
    runningEngine.batchesWg = 2
    ∧ runningEngine.ShutDown (some "scheduler did not stop")
        = (some "scheduler did not stop", [Effect.schedulerShutdown])
    ∧ Effect.wgWait ∉ (runningEngine.ShutDown (some "scheduler did not stop")).2 := by
  decide

/-- C5, amended: `ShutDown` reports the scheduler's error exactly when a
scheduler exists and stopping it fails, and in that case returns without
waiting; in every other execution it returns no error and the wait on the
outstanding-task group is its last call, after the stop of the scheduler when
there is one. -/
theorem ShutDown_waits_iff_stop_succeeds (b : Batching) (stop : Option String) :
    ((b.ShutDown stop).1 = if b.scheduler.isSome then stop else none)
    ∧ (Effect.wgWait ∈ (b.ShutDown stop).2 ↔ (b.ShutDown stop).1 = none)
    ∧ (∀ err, (b.ShutDown stop).1 = some err →
        b.scheduler.isSome ∧ stop = some err
        ∧ (b.ShutDown stop).2 = [Effect.schedulerShutdown])
    ∧ ((b.ShutDown stop).1 = none →
        (b.ShutDown stop).2
          = (if b.scheduler.isSome then [Effect.schedulerShutdown] else []) ++ [Effect.wgWait]) := by
  unfold Batching.ShutDown
  cases hs : b.scheduler with
  | none => simp
  | some s =>
    cases stop with
    | none => simp
    | some err => simp

/-- C5, amended, at concrete inputs: the failing stop returns the error
without the wait; the successful stop waits last. -/
theorem ShutDown_waits_iff_stop_succeeds_witness :
    (runningEngine.ShutDown (some "scheduler did not stop")).1 = some "scheduler did not stop"
    ∧ (runningEngine.scheduler.isSome ∧ some "scheduler did not stop" = some "scheduler did not stop"
        ∧ (runningEngine.ShutDown (some "scheduler did not stop")).2 = [Effect.schedulerShutdown])
    ∧ (runningEngine.ShutDown none).1 = none
    ∧ (runningEngine.ShutDown none).2
        = (if runningEngine.scheduler.isSome then [Effect.schedulerShutdown] else [])
            ++ [Effect.wgWait] :=
  ⟨rfl,
    (ShutDown_waits_iff_stop_succeeds runningEngine (some "scheduler did not stop")).2.2.1
      "scheduler did not stop" rfl,
    rfl,
    (ShutDown_waits_iff_stop_succeeds runningEngine none).2.2.2 rfl⟩


/-! ## Failure of a chain -/

theorem survivingOutputs_mem (m : JobProcess) (allJobs : List Job) (ts : List JobType)
    (t : JobType) (ht : t ∈ ts) (out : List Job) (hout : typeOutput m allJobs t = some out) :
    ∀ j ∈ out, j ∈ survivingOutputs m allJobs ts := by
  induction ts with
  | nil => simp at ht
  | cons t1 rest ih =>
    intro j hj
    simp only [survivingOutputs]
    rcases List.mem_cons.mp ht with heq | hmem
    · subst heq
      rw [hout]
      exact List.mem_append_left _ hj
    · cases typeOutput m allJobs t1 with
      | none => exact ih hmem j hj
      | some out1 => exact List.mem_append_right _ (ih hmem j hj)

theorem Process_eq_none_iff (m : JobProcess) (order : List Nat) (race : Race)
    (allJobs : List Job) :
    m.Process order race allJobs = none
      ↔ race = Race.exitFirst
        ∧ ∃ t ∈ distinctTypes allJobs, typeOutput m allJobs t = none := by
  by_cases hex : ∃ t ∈ distinctTypes allJobs, typeOutput m allJobs t = none
  · have hall : ¬ (runTasks m (Split allJobs)).all Option.isSome = true := by
      rw [runTasks_Split, all_isSome_iff]
      exact fun h => h hex
    unfold JobProcess.Process
    cases race with
    | exitFirst => simp [hall, hex]
    | returnFirst => simp [hall]
  · rw [Process_returns_of_all m order race allJobs hex]
    simp [hex]

/-- C6, as found: the chain for `"A"` is `[RemoveTwoJobsProcessor]`, the chain
for `"B"` is `[DummyProcessor]`, the input is `[A1, B1]`. The chain for `"A"`
panics on its single job while the chain for `"B"` returns `[B1]`. In the
execution in which the runtime ends the program before the wait is over,
`Process` returns no result, in either delivery order. -/
theorem Process_failure_not_isolated :
    typeOutput failingRegistry [jobA 1, jobB 1] "A" = none
    ∧ typeOutput failingRegistry [jobA 1, jobB 1] "B" = some [jobB 1]
    ∧ ValidOrder [0, 1] (Split [jobA 1, jobB 1]).length
    ∧ ValidOrder [1, 0] (Split [jobA 1, jobB 1]).length
    ∧ failingRegistry.Process [0, 1] Race.exitFirst [jobA 1, jobB 1] = none
    ∧ failingRegistry.Process [1, 0] Race.exitFirst [jobA 1, jobB 1] = none := by
  decide

/-- C6, amended: a panic in the chain of one type ends the program, and
`Process` returns no result exactly when some present type's chain panics and
the runtime ends the program before the wait is over. In every other execution
it returns, and the result is a permutation of the concatenated outputs of the
types whose chains returned: it contains the chain output of every such type
and nothing else. -/
theorem Process_result_on_chain_failure
    (m : JobProcess) (order : List Nat) (race : Race) (allJobs : List Job) :
    (m.Process order race allJobs = none
      ↔ race = Race.exitFirst
        ∧ ∃ t ∈ distinctTypes allJobs, typeOutput m allJobs t = none)
    ∧ (ValidOrder order (Split allJobs).length →
        ∀ result, m.Process order race allJobs = some result →
          result.Perm (survivingOutputs m allJobs (distinctTypes allJobs))
          ∧ ∀ t ∈ distinctTypes allJobs, ∀ out, typeOutput m allJobs t = some out →
              ∀ j ∈ out, j ∈ result) := by
  refine ⟨Process_eq_none_iff m order race allJobs, ?_⟩
  intro horder result hres
  have hperm := Process_returned_perm m order race allJobs result horder hres
  refine ⟨hperm, ?_⟩
  intro t ht out hout j hj
  exact hperm.mem_iff.mpr (survivingOutputs_mem m allJobs _ t ht out hout j hj)

/-- C6, amended, at the concrete input `[A1, B1]` with the panicking chain for
`"A"`: when the program ends first there is no result; when the call returns
first the result is `[B1]`, the output of the chain for `"B"`. -/
theorem Process_result_on_chain_failure_witness :
    (Race.exitFirst = Race.exitFirst
      ∧ ∃ t ∈ distinctTypes [jobA 1, jobB 1],
          typeOutput failingRegistry [jobA 1, jobB 1] t = none)
    ∧ failingRegistry.Process [0, 1] Race.exitFirst [jobA 1, jobB 1] = none
    ∧ ValidOrder [1, 0] (Split [jobA 1, jobB 1]).length
    ∧ failingRegistry.Process [1, 0] Race.returnFirst [jobA 1, jobB 1] = some [jobB 1]
    ∧ survivingOutputs failingRegistry [jobA 1, jobB 1] (distinctTypes [jobA 1, jobB 1])
        = [jobB 1]
    ∧ ([jobB 1].Perm
          (survivingOutputs failingRegistry [jobA 1, jobB 1] (distinctTypes [jobA 1, jobB 1]))
        ∧ ∀ t ∈ distinctTypes [jobA 1, jobB 1], ∀ out,
            typeOutput failingRegistry [jobA 1, jobB 1] t = some out →
              ∀ j ∈ out, j ∈ [jobB 1]) :=
  ⟨⟨rfl, "A", by decide, by decide⟩,
    (Process_result_on_chain_failure failingRegistry [0, 1] Race.exitFirst
      [jobA 1, jobB 1]).1.mpr ⟨rfl, "A", by decide, by decide⟩,
    by decide, by decide, by decide,
    (Process_result_on_chain_failure failingRegistry [1, 0] Race.returnFirst
      [jobA 1, jobB 1]).2 (by decide) [jobB 1] (by decide)⟩

/-! ## Empty batches and the number of dispatch tasks -/

theorem Post_with_pipeline (b : Batching) (m : JobProcess) (order : List Nat) (race : Race)
    (hon : b.preProcess = some m) (hne : b.queue.jobs ≠ []) :
    b.Post order race
      = (m.Process order race b.queue.jobs).map (fun R =>
          ({ b with queue := { jobs := R.drop b.config.BatchSize },
                    batchesWg := b.batchesWg + 1 },
            [Effect.pipeline b.queue.jobs, Effect.go (R.take b.config.BatchSize)])) := by
  have h1 : List.take b.queue.Size b.queue.jobs = b.queue.jobs := by
    simp [Queue.Size]
  have h2 : List.drop b.queue.Size b.queue.jobs = [] := by
    simp [Queue.Size]
  unfold Batching.Post
  rw [if_neg (length_ne_zero_of_ne_nil b.queue hne)]
  cases hR : m.Process order race b.queue.jobs with
  | none => simp [hon, Queue.Dequeue, h1, hR]
  | some R => simp [hon, Queue.EnqueueJobs, Queue.Dequeue, h1, h2, hR]

/-- C10, as found: an engine with the non-empty queue `[A1, B1]` and a pipeline
whose chain for `"A"` panics. In the execution in which the runtime ends the
program before the cycle is over, the cycle does not return and starts no
dispatch task, in either delivery order. -/
theorem Post_panicking_pipeline_starts_no_task :
    failingEngine.queue.jobs ≠ []
    ∧ failingEngine.Post [0, 1] Race.exitFirst = none
    ∧ failingEngine.Post [1, 0] Race.exitFirst = none :=
  ⟨by decide, rfl, rfl⟩

/-- C10, amended: a non-empty queue on entry does not guarantee a non-empty
batch. With batch size 0, and with a pipeline whose chain removes every queued
job, one dispatch cycle on a one-job queue still raises the outstanding-task
count by one and starts a dispatch task with the empty batch, which the task
hands to the external processor. For every state with a non-empty queue the
cycle fails to return exactly when preprocessing is on, the chain of some
queued type panics and the runtime ends the program first; in every other
execution it starts exactly one dispatch task and raises the count by one. -/
theorem Post_one_task_unless_program_ends :
    (zeroBatchEngine.queue.jobs ≠ []
      ∧ ∀ race, zeroBatchEngine.Post [] race
          = some ({ zeroBatchEngine with batchesWg := zeroBatchEngine.batchesWg + 1 },
              [Effect.go []]))
    ∧ (dropAllEngine.queue.jobs ≠ [] ∧ 0 < dropAllEngine.config.BatchSize
      ∧ ∀ race, dropAllEngine.Post [0] race
          = some ({ dropAllEngine with queue := { jobs := [] },
                                       batchesWg := dropAllEngine.batchesWg + 1 },
              [Effect.pipeline [jobA 1], Effect.go []]))
    ∧ (∀ task : Batching,
        (task.post []).2 = [Effect.processAndSleep [] 5, Effect.log "Batch processed"])
    ∧ (∀ (b : Batching) (order : List Nat) (race : Race), b.queue.jobs ≠ [] →
        (b.Post order race = none
          ↔ race = Race.exitFirst
            ∧ ∃ m, b.preProcess = some m
              ∧ ∃ t ∈ distinctTypes b.queue.jobs, typeOutput m b.queue.jobs t = none)
        ∧ (¬ (race = Race.exitFirst
              ∧ ∃ m, b.preProcess = some m
                ∧ ∃ t ∈ distinctTypes b.queue.jobs, typeOutput m b.queue.jobs t = none) →
            ∃ b1 effects, b.Post order race = some (b1, effects)
              ∧ (effects.filter Effect.isGo).length = 1
              ∧ b1.batchesWg = b.batchesWg + 1)) := by
  refine ⟨⟨by decide, fun race => by cases race <;> rfl⟩,
    ⟨by decide, by decide, fun race => by cases race <;> rfl⟩, fun _ => rfl, ?_⟩
  intro b order race hne
  cases hp : b.preProcess with
  | none =>
    have hpost : b.Post order race
        = some ({ b with queue := (b.queue.Dequeue b.config.BatchSize).2,
                         batchesWg := b.batchesWg + 1 },
            [Effect.go (b.queue.Dequeue b.config.BatchSize).1]) := by
      unfold Batching.Post
      rw [if_neg (length_ne_zero_of_ne_nil b.queue hne)]
      simp only [hp]
    refine ⟨?_, ?_⟩
    · rw [hpost]
      simp
    · intro _
      exact ⟨_, _, hpost, by simp [Effect.isGo], rfl⟩
  | some m =>
    have hpost := Post_with_pipeline b m order race hp hne
    have hnone := Process_eq_none_iff m order race b.queue.jobs
    refine ⟨?_, ?_⟩
    · rw [hpost, Option.map_eq_none', hnone]
      simp
    · intro hno
      cases hR : m.Process order race b.queue.jobs with
      | none =>
        exfalso
        have h := hnone.mp hR
        exact hno ⟨h.1, m, rfl, h.2⟩
      | some R =>
        rw [hR] at hpost
        exact ⟨_, _, hpost, by simp [Effect.isGo], rfl⟩

/-- C10, amended, at a concrete input with the pipeline on: the queue
`[A1, B1]` and a panicking chain for `"A"`. When the cycle returns before the
program ends it starts exactly one dispatch task, with the batch `[B1]`. -/
theorem Post_one_task_unless_program_ends_witness :
    failingEngine.queue.jobs ≠ []
    ∧ ¬ (Race.returnFirst = Race.exitFirst
          ∧ ∃ m, failingEngine.preProcess = some m
            ∧ ∃ t ∈ distinctTypes failingEngine.queue.jobs,
                typeOutput m failingEngine.queue.jobs t = none)
    ∧ (∃ b1 effects, failingEngine.Post [0, 1] Race.returnFirst = some (b1, effects)
        ∧ (effects.filter Effect.isGo).length = 1
        ∧ b1.batchesWg = failingEngine.batchesWg + 1)
    ∧ (failingEngine.Post [0, 1] Race.returnFirst).map
          (fun r => (r.2, r.1.queue.jobs, r.1.batchesWg))
        = some ([Effect.pipeline [jobA 1, jobB 1], Effect.go [jobB 1]], [], 1) :=
  ⟨by decide, (fun h => absurd h.1 (by decide)),
    (Post_one_task_unless_program_ends.2.2.2 failingEngine [0, 1] Race.returnFirst
      (by decide)).2 (fun h => absurd h.1 (by decide)),
    by decide⟩

end MicroBatching
